import Mathlib

/-!
Shallow embedding of the advanced-search subsystem of the tasks-manager
repository (`task_processor/search.py`): the query tokenizer (`SearchParser.parse`
and its regex `FIELD_PATTERN`), the canonical query rebuild, the filter-toggle
engine (`generate_future_query` with its four strategies), the filter-state
decoration (`apply_tokens_to_filters`), and the `energy` branch of the
predicate builder (`_build_field_filter`).

Strings are modelled as `List Char` where scanning is involved (ASCII inputs;
Python's `\w` is modelled as `[A-Za-z0-9_]` and `\s` as the ASCII whitespace
class, which agree with Python on every input appearing in this development).
Python dicts (insertion-ordered, unique keys) are modelled as association
lists.  Scanning loops that are not structurally recursive take explicit fuel;
each step consumes at least one character, so fuel `length + 1` is always
sufficient and the out-of-fuel branches are unreachable.
-/

/-- Python `\w` (ASCII): letters, digits, underscore. -/
def isWordChar (c : Char) : Bool :=
  c.isAlphanum || c = '_'

/-- Python `\s` (ASCII): the whitespace class used by `str.strip` and `re`. -/
def isSpaceChar (c : Char) : Bool :=
  c = ' ' || c = '\t' || c = '\n' || c = '\r' || c = '\x0b' || c = '\x0c'

/-- Python `str.strip()` on a char list. -/
def stripWS (l : List Char) : List Char :=
  ((l.dropWhile isSpaceChar).reverse.dropWhile isSpaceChar).reverse

/-- Python `str.strip(chars)`: remove leading/trailing characters from `set`. -/
def stripChars (l : List Char) (set : List Char) : List Char :=
  ((l.dropWhile set.contains).reverse.dropWhile set.contains).reverse

/-- `re.sub(r"\s+", " ", s)`: collapse every whitespace run to a single space. -/
def collapseWS : List Char → List Char
  | [] => []
  | c :: t =>
    match t with
    | [] => if isSpaceChar c then [' '] else [c]
    | c2 :: _ =>
      if isSpaceChar c && isSpaceChar c2 then collapseWS t
      else (if isSpaceChar c then ' ' else c) :: collapseWS t

/-- `re.sub` of the standalone-quote pattern of `_clean_remaining_query`:
a double quote preceded by start-of-string or whitespace and followed by
whitespace or end-of-string is replaced (with the surrounding whitespace it
consumed) by a single space.  `atStart` tracks the `^` anchor. -/
def subStandaloneQuoteFuel (fuel : Nat) (l : List Char) (atStart : Bool) : List Char :=
  match fuel with
  | 0 => l
  | fuel + 1 =>
    match l, atStart with
    | [], _ => []
    | ['"'], true => [' ']
    | '"' :: c2 :: rest2, true =>
      if isSpaceChar c2 then ' ' :: subStandaloneQuoteFuel fuel rest2 false
      else '"' :: subStandaloneQuoteFuel fuel (c2 :: rest2) false
    | c :: rest, _ =>
      if isSpaceChar c then
        match rest with
        | ['"'] => [' ']
        | '"' :: c3 :: rest3 =>
          if isSpaceChar c3 then ' ' :: subStandaloneQuoteFuel fuel rest3 false
          else c :: subStandaloneQuoteFuel fuel ('"' :: c3 :: rest3) false
        | other => c :: subStandaloneQuoteFuel fuel other false
      else c :: subStandaloneQuoteFuel fuel rest false

def subStandaloneQuote (l : List Char) (atStart : Bool) : List Char :=
  subStandaloneQuoteFuel (l.length + 1) l atStart

/-- Python `str.replace(pat, " ", 1)`: replace the first occurrence of `pat`
by a single space (unchanged when `pat` does not occur). -/
def replaceFirst (l pat : List Char) : List Char :=
  if pat.isPrefixOf l then ' ' :: l.drop pat.length
  else
    match l with
    | [] => []
    | c :: t => c :: replaceFirst t pat

/-- Length matched by one `"[^"]*"` at the head of `l` (`none` if no match). -/
def quotedLen (l : List Char) : Option Nat :=
  match l with
  | '"' :: t =>
    let inner := t.takeWhile (fun c => c != '"')
    if (t.drop inner.length).head? = some '"' then some (inner.length + 2) else none
  | _ => none

/-- Length matched by the greedy repetition `(?:,"[^"]*")*` at the head of `l`. -/
def quotedTailLen (fuel : Nat) (l : List Char) : Nat :=
  match fuel with
  | 0 => 0
  | fuel + 1 =>
    match l with
    | ',' :: t =>
      match quotedLen t with
      | some n => n + 1 + quotedTailLen fuel (t.drop n)
      | none => 0
    | _ => 0

/-- Length matched by the value alternation of `FIELD_PATTERN`:
`(?:"[^"]*"(?:,"[^"]*")*)|(?:[^\s]+)` (the quoted alternative is tried first,
exactly as in the regex). -/
def valueLen (l : List Char) : Option Nat :=
  match quotedLen l with
  | some n => some (n + quotedTailLen l.length (l.drop n))
  | none =>
    let v := l.takeWhile (fun c => !isSpaceChar c)
    if v.length = 0 then none else some v.length

/-- One match of `FIELD_PATTERN = (-?)(\w+):((?:"[^"]*"(?:,"[^"]*")*)|(?:[^\s]+))`:
group 1 as `neg`, group 2 as `fld`, group 3 as `val`. -/
structure RawMatch where
  neg : Bool
  fld : List Char
  val : List Char
deriving DecidableEq, Repr

/-- group 0 of a match: the full matched text. -/
def RawMatch.text (m : RawMatch) : List Char :=
  (if m.neg then ['-'] else []) ++ m.fld ++ ':' :: m.val

/-- Attempt `FIELD_PATTERN` after the optional leading `-` has been consumed. -/
def tryMatchCore (neg : Bool) (l1 : List Char) : Option RawMatch :=
  let f := l1.takeWhile isWordChar
  if f.length = 0 then none
  else
    match l1.drop f.length with
    | ':' :: l3 =>
      match valueLen l3 with
      | some n => some ⟨neg, f, l3.take n⟩
      | none => none
    | _ => none

/-- Attempt `FIELD_PATTERN` at the head of `l`.  A leading `-` can only be
used by group 1 (if the rest does not match, backtracking into `\w+` fails
since `-` is not a word character, exactly as in the regex). -/
def tryMatchAt (l : List Char) : Option RawMatch :=
  match l with
  | '-' :: t => tryMatchCore true t
  | _ => tryMatchCore false l

/-- `FIELD_PATTERN.finditer`: leftmost non-overlapping matches, scanning
resumes after each match.  Each step consumes at least one character, so fuel
`l.length + 1` (supplied by `findMatches`) never runs out. -/
def findMatchesFuel (fuel : Nat) (l : List Char) : List RawMatch :=
  match fuel with
  | 0 => []
  | fuel + 1 =>
    match tryMatchAt l with
    | some m => m :: findMatchesFuel fuel (l.drop m.text.length)
    | none =>
      match l with
      | [] => []
      | _ :: t => findMatchesFuel fuel t

def findMatches (l : List Char) : List RawMatch :=
  findMatchesFuel (l.length + 1) l

/-- `QUOTED_STRING_PATTERN.findall`: all `"([^"]*)"` captures, left to right.
Each step consumes at least two characters, so fuel `l.length + 1` suffices. -/
def quotedFindallFuel (fuel : Nat) (l : List Char) : List (List Char) :=
  match fuel with
  | 0 => []
  | fuel + 1 =>
    match l.dropWhile (fun c => c != '"') with
    | '"' :: t =>
      let inner := t.takeWhile (fun c => c != '"')
      match t.drop inner.length with
      | '"' :: rest => inner :: quotedFindallFuel fuel rest
      | _ => []
    | _ => []

def quotedFindall (l : List Char) : List (List Char) :=
  quotedFindallFuel (l.length + 1) l

/-- `SearchParser._parse_field_value`. -/
def parseFieldValue (v : List Char) : List String :=
  if v.head? = some '"' ∧ v.getLast? = some '"' then
    (quotedFindall v).map (·.asString)
  else if v.contains '"' then
    (quotedFindall v).map (·.asString)
  else if v.contains ',' then
    (((v.splitOn ',').map stripWS).filter (fun x => !x.isEmpty)).map (·.asString)
  else [v.asString]

/-- `SearchParser._clean_remaining_query` (with the parser's default
`forced_query = ""`, appending it is the identity on a stripped string). -/
def cleanRemainingQuery (l : List Char) : List Char :=
  let c1 := stripWS (collapseWS l)
  let c2 := subStandaloneQuote c1 true
  stripWS (collapseWS c2)

/-- The `SearchTokens` dataclass.  `included`/`excluded` are insertion-ordered
dicts `field -> list of values`, modelled as association lists. -/
structure SearchTokens where
  original_query : String
  included : List (String × List String)
  excluded : List (String × List String)
  query : String
deriving DecidableEq, Repr

/-- Dict lookup `d[k]` (`none` when `k not in d`). -/
def dictGet : List (String × List String) → String → Option (List String)
  | [], _ => none
  | (k1, vs) :: t, k => if k1 = k then some vs else dictGet t k

/-- The parse-loop update `if f not in d: d[f] = []` followed by
`d[f].extend(vs)`: append to an existing entry in place, else insert at the
end (Python dict insertion order). -/
def dictExtend : List (String × List String) → String → List String → List (String × List String)
  | [], k, vs => [(k, vs)]
  | (k1, vs1) :: t, k, vs =>
    if k1 = k then (k1, vs1 ++ vs) :: t else (k1, vs1) :: dictExtend t k vs

/-- `del d[k]` (no-op when absent; keys are unique by construction). -/
def dictDel (d : List (String × List String)) (k : String) : List (String × List String) :=
  d.filter (fun p => p.1 != k)

/-- One iteration of the `parse` loop: add the match's values to the
appropriate dict and blank the first occurrence of the matched text in the
remaining query. -/
def parseStep
    (acc : List (String × List String) × List (String × List String) × List Char)
    (m : RawMatch) :
    List (String × List String) × List (String × List String) × List Char :=
  let values := parseFieldValue m.val
  let acc1 :=
    if m.neg then (acc.1, dictExtend acc.2.1 m.fld.asString values, acc.2.2)
    else (dictExtend acc.1 m.fld.asString values, acc.2.1, acc.2.2)
  (acc1.1, acc1.2.1, replaceFirst acc1.2.2 m.text)

/-- `SearchParser.parse`. -/
def parse (queryString : String) : SearchTokens :=
  if queryString = "" then ⟨"", [], [], ""⟩
  else
    let stripped := stripWS queryString.data
    let ms := findMatches queryString.data
    let r := ms.foldl parseStep ([], [], stripped)
    { original_query := stripped.asString
      included := r.1
      excluded := r.2.1
      query := (cleanRemainingQuery r.2.2).asString }

/-- `SearchParser._normalize_value`: strip quotes then whitespace. -/
def normalizeValue (v : String) : String :=
  (stripWS (stripChars v.data ['"', '\''])).asString

/-- `SearchParser._needs_quoting`. -/
def needsQuoting (v : String) : Bool :=
  v.data.contains ' ' || "@#!,:".data.any (fun c => v.data.contains c)
    || !(v.data == stripWS v.data)

/-- `SearchParser._format_value_for_query`. -/
def formatValueForQuery (v : String) : String :=
  let n := normalizeValue v
  if needsQuoting n then "\"" ++ n ++ "\"" else n

/-- `SearchParser._format_grouped_values`. -/
def formatGroupedValues (vs : List String) : String :=
  String.intercalate "," (vs.map formatValueForQuery)

/-- `SearchParser._rebuild_query_string`: included fields, then excluded
fields, then the free text, space-joined; empty value lists are skipped. -/
def rebuildQueryString (t : SearchTokens) (freeText : String) : String :=
  let incParts := t.included.filterMap
    (fun p => if p.2.isEmpty then none else some (p.1 ++ ":" ++ formatGroupedValues p.2))
  let excParts := t.excluded.filterMap
    (fun p => if p.2.isEmpty then none else some ("-" ++ p.1 ++ ":" ++ formatGroupedValues p.2))
  let ft := (stripWS freeText.data).asString
  let parts := incParts ++ excParts ++ (if ft = "" then [] else [ft])
  String.intercalate " " parts

/-- `generate_future_query` rebuilds with `tokens.query` as free text. -/
def rebuildOf (t : SearchTokens) : String :=
  rebuildQueryString t t.query

/-- One parse -> rebuild round trip. -/
def roundTrip (s : String) : String :=
  rebuildOf (parse s)

/-- The value content of a query string: included map, excluded map and free
text of its parse. -/
def contentOf (s : String) :
    List (String × List String) × List (String × List String) × String :=
  ((parse s).included, (parse s).excluded, (parse s).query)

/-- `SearchParser._parse_filter_query`: `findall` then
`(field, value.strip(quote).lower())`. -/
def parseFilterQuery (s : String) : List (String × String) :=
  (findMatches s.data).map
    (fun m => (m.fld.asString, ((stripChars m.val ['"']).map Char.toLower).asString))

/-- `SearchParser._matches_filter_value`. -/
def matchesFilterValue (a b : String) : Bool :=
  normalizeValue a == normalizeValue b

/-- `FilterCategory` enumeration. -/
inductive FilterCategory
  | STATUS | PRIORITY | DUE | ENERGY | RELATIONSHIP | AREA | CONTEXT | PROJECT
deriving DecidableEq, Repr

/-- `FilterStrategy` enumeration. -/
inductive FilterStrategy
  | NORMAL | EXCLUSIVE | INVERT | REPLACE
deriving DecidableEq, Repr

/-- `FILTER_STRATEGY_MAP`. -/
def filterStrategyMap : FilterCategory → FilterStrategy
  | .STATUS => .REPLACE
  | .PRIORITY => .EXCLUSIVE
  | .DUE => .EXCLUSIVE
  | .ENERGY => .EXCLUSIVE
  | .RELATIONSHIP => .NORMAL
  | .AREA => .INVERT
  | .CONTEXT => .NORMAL
  | .PROJECT => .EXCLUSIVE

/-- The `FilterOption` named tuple. -/
structure FilterOption where
  label : String
  filter_query : String
  icon : String
  color : String
  category : FilterCategory
  active : Bool := false
  inversed : Bool := false
  next_query : String := ""
deriving DecidableEq, Repr

/-- The `current_state` dict `{"active": ..., "inversed": ...}`. -/
structure ToggleState where
  active : Bool
  inversed : Bool
deriving DecidableEq, Repr

/-- `SearchParser._add_filter_value`: create the field entry when missing,
append the value only when not already present. -/
def addFilterValue : List (String × List String) → String → String → List (String × List String)
  | [], f, v => [(f, [v])]
  | (k, vs) :: t, f, v =>
    if k = f then (k, if vs.contains v then vs else vs ++ [v]) :: t
    else (k, vs) :: addFilterValue t f v

/-- The per-dict part of `SearchParser._remove_filter_value`: remove the first
occurrence of the value, dropping the field when its list becomes empty. -/
def removeValueFromDict : List (String × List String) → String → String → List (String × List String)
  | [], _, _ => []
  | (k, vs) :: t, f, v =>
    if k = f then
      if vs.contains v then
        (if (vs.erase v).isEmpty then t else (k, vs.erase v) :: t)
      else (k, vs) :: t
    else (k, vs) :: removeValueFromDict t f v

/-- `SearchParser._remove_filter_value` (acts on both dicts). -/
def removeFilterValue (t : SearchTokens) (f v : String) : SearchTokens :=
  { t with
    included := removeValueFromDict t.included f v
    excluded := removeValueFromDict t.excluded f v }

/-- `SearchParser._apply_exclusive_filter_strategy`. -/
def applyExclusiveFilterStrategy (t : SearchTokens) (f v : String) (isActive : Bool) :
    SearchTokens :=
  if isActive then removeFilterValue t f v
  else
    let t1 := { t with included := dictDel t.included f, excluded := dictDel t.excluded f }
    { t1 with included := addFilterValue t1.included f v }

/-- `SearchParser._apply_normal_filter_strategy`. -/
def applyNormalFilterStrategy (t : SearchTokens) (f v : String)
    (isActive _isInversed : Bool) : SearchTokens :=
  if isActive then removeFilterValue t f v
  else { t with included := addFilterValue t.included f v }

/-- `SearchParser._apply_invert_filter_strategy`. -/
def applyInvertFilterStrategy (t : SearchTokens) (f v : String)
    (isActive isInversed : Bool) : SearchTokens :=
  if !isActive then { t with included := addFilterValue t.included f v }
  else if isActive && !isInversed then
    let t1 := removeFilterValue t f v
    { t1 with excluded := addFilterValue t1.excluded f v }
  else removeFilterValue t f v

/-- The tokens `generate_future_query` rebuilds its result from: parse the
current query, extract the target's (field, value), dispatch on the strategy
(the category's strategy when none is passed).  `none` when the target's
`filter_query` yields no field/value pair. -/
def nextTokens (currentQuery : String) (target : FilterOption) (st : ToggleState)
    (strategy : Option FilterStrategy) : Option SearchTokens :=
  let tokens := parse currentQuery
  match parseFilterQuery target.filter_query with
  | [] => none
  | (f, v) :: _ =>
    let strat := strategy.getD (filterStrategyMap target.category)
    some (match strat with
      | .EXCLUSIVE => applyExclusiveFilterStrategy tokens f v st.active
      | .INVERT => applyInvertFilterStrategy tokens f v st.active st.inversed
      | .REPLACE =>
        let t0 :=
          if st.inversed then { tokens with included := [], excluded := [(f, [v])] }
          else { tokens with included := [(f, [v])], excluded := [] }
        applyInvertFilterStrategy t0 f v st.active st.inversed
      | .NORMAL => applyNormalFilterStrategy tokens f v st.active st.inversed)

/-- `SearchParser.generate_future_query`. -/
def generateFutureQuery (currentQuery : String) (target : FilterOption)
    (st : ToggleState) (strategy : Option FilterStrategy) : String :=
  match nextTokens currentQuery target st strategy with
  | none => currentQuery
  | some t => rebuildQueryString t t.query

/-- The active/inversed detection loop of `apply_tokens_to_filters`: first
filter part matched in `included` or `excluded` decides; a hit in `excluded`
sets `inversed` even when `included` also matched. -/
def computeFilterState (t : SearchTokens) : List (String × String) → ToggleState
  | [] => ⟨false, false⟩
  | (f, v) :: rest =>
    let incHit := match dictGet t.included f with
      | some vs => vs.any (fun tv => matchesFilterValue tv v)
      | none => false
    let excHit := match dictGet t.excluded f with
      | some vs => vs.any (fun tv => matchesFilterValue tv v)
      | none => false
    if incHit || excHit then ⟨true, excHit⟩
    else computeFilterState t rest

/-- `SearchParser.apply_tokens_to_filters`. -/
def applyTokensToFilters (t : SearchTokens) (filters : List FilterOption)
    (currentQuery : String) : List FilterOption :=
  filters.map (fun fo =>
    let st := computeFilterState t (parseFilterQuery fo.filter_query)
    let nq := generateFutureQuery currentQuery fo st none
    { label := fo.label, filter_query := fo.filter_query, icon := fo.icon
      color := fo.color, category := fo.category
      active := st.active, inversed := st.inversed, next_query := nq })

/-- One click on a filter chip, exactly as `get_filters_with_state` drives it:
decorate the option against the current query and read off its `next_query`. -/
def clickFilter (q : String) (fo : FilterOption) : String :=
  match applyTokensToFilters (parse q) [fo] q with
  | r :: _ => r.next_query
  | [] => ""

/-- `GTDEnergy` text choices. -/
inductive GTDEnergy
  | HIGH | MEDIUM | LOW
deriving DecidableEq, Repr

/-- Django `Q` objects as built by the `energy` branch of
`_build_field_filter`: the empty `Q()`, an `energy=...` equality (with
`none` for `energy=None`), negation `~Q(...)`, and disjunction `|`. -/
inductive DjangoQ
  | empty
  | energyEq (e : Option GTDEnergy)
  | qnot (q : DjangoQ)
  | qor (a b : DjangoQ)
deriving DecidableEq, Repr

/-- Django's `Q.__or__` via `Q._combine`: an empty `Q` is the identity. -/
def qorCombine (a b : DjangoQ) : DjangoQ :=
  if a = .empty then b else if b = .empty then a else .qor a b

/-- The `energy_map` dict of `_build_field_filter`. -/
def energyMap : List (String × Option GTDEnergy) :=
  [("low", some .LOW), ("normal", none), ("high", some .HIGH), ("medium", some .MEDIUM)]

/-- Python `value.lower().strip()` done at the top of the value loop. -/
def pyLowerStrip (v : String) : List Char :=
  stripWS (v.data.map Char.toLower)

/-- The `energy` branch of `_build_field_filter`: fold the values, OR-ing an
equality for values in `energy_map`, a negated equality for `-`-prefixed
values (`value[1:]`, i.e. the tail) whose remainder is in `energy_map`, and
nothing otherwise. -/
def buildEnergyQ (values : List String) : DjangoQ :=
  values.foldl
    (fun acc v0 =>
      let v := pyLowerStrip v0
      match energyMap.lookup v.asString with
      | some e => qorCombine acc (.energyEq e)
      | none =>
        match v with
        | '-' :: rest =>
          match energyMap.lookup rest.asString with
          | some e => qorCombine acc (.qnot (.energyEq e))
          | none => acc
        | _ => acc)
    .empty

/-! Fidelity anchors: the embedding reproduces the behaviours exercised by the
repository's `test_generate_future_query.py` suite. -/

example :
    generateFutureQuery "in:inbox priority:high"
      ⟨"Urgent Priority", "priority:urgent", "lucide-circle-alert", "red",
        .PRIORITY, false, false, ""⟩ ⟨false, false⟩ none
      = "in:inbox priority:urgent" := by decide

example :
    generateFutureQuery "has:project"
      ⟨"Has Context", "has:context", "lucide-hash", "blue",
        .RELATIONSHIP, false, false, ""⟩ ⟨false, false⟩ none
      = "has:project,context" := by decide

example :
    generateFutureQuery "in:inbox area:\"Work\""
      ⟨"Work Area", "area:\"Work\"", "lucide-target", "green",
        .AREA, false, false, ""⟩ ⟨true, false⟩ none
      = "in:inbox area:Work -area:work" := by decide

example :
    generateFutureQuery "context:\"@home\""
      ⟨"Office Context", "context:\"@office\"", "lucide-hash", "purple",
        .CONTEXT, false, false, ""⟩ ⟨false, false⟩ none
      = "context:\"@home\",\"@office\"" := by decide

example :
    parse "in:inbox tags:\"train\",\"my god\" is:overdue priority:-low coucou"
      = { original_query := "in:inbox tags:\"train\",\"my god\" is:overdue priority:-low coucou"
          included := [("in", ["inbox"]), ("tags", ["train", "my god"]),
            ("is", ["overdue"]), ("priority", ["-low"])]
          excluded := []
          query := "coucou" } := by decide

/-! Helper lemmas on the dict operations. -/

theorem dictGet_dictDel_self (d : List (String × List String)) (f : String) :
    dictGet (dictDel d f) f = none := by
  induction d with
  | nil => rfl
  | cons p t ih =>
    obtain ⟨k, vs⟩ := p
    by_cases h : k = f
    · simpa [dictDel, h] using ih
    · simpa [dictDel, dictGet, h] using ih

theorem addFilterValue_of_dictGet_none {d : List (String × List String)} {f : String}
    (v : String) (h : dictGet d f = none) : addFilterValue d f v = d ++ [(f, [v])] := by
  induction d with
  | nil => rfl
  | cons p t ih =>
    obtain ⟨k, vs⟩ := p
    by_cases hk : k = f
    · simp [dictGet, hk] at h
    · simp only [dictGet, if_neg hk] at h
      simp [addFilterValue, hk, ih h]

theorem addFilterValue_singleton_self (f v : String) :
    addFilterValue [(f, [v])] f v = [(f, [v])] := by
  simp [addFilterValue]

theorem removeValueFromDict_singleton_self (f v : String) :
    removeValueFromDict [(f, [v])] f v = [] := by
  simp [removeValueFromDict, List.erase_cons]

/-- C3 counterexample: with each click's state computed from the current
query, the second click on the `area:"work"` Invert filter starting from
`area:work` yields `-area:work`, whose parsed content differs from that of
`area:work -area:work` (the claim's asserted intermediate query). -/
theorem c3_counterexample :
    clickFilter "area:work"
      ⟨"work", "area:\"work\"", "lucide-at-sign", "green", .AREA, false, false, ""⟩
      = "-area:work" ∧
    contentOf "-area:work" ≠ contentOf "area:work -area:work" := by decide

/-- C3 (amended): the Invert (area) filter cycles through exactly three
states under repeated clicks with state recomputed from the current query:
`""` -> `area:work` -> `-area:work` (the value moves from the included map to
the excluded map) -> `""`. -/
theorem c3_invert_cycle :
    clickFilter ""
      ⟨"work", "area:\"work\"", "lucide-at-sign", "green", .AREA, false, false, ""⟩
      = "area:work" ∧
    clickFilter "area:work"
      ⟨"work", "area:\"work\"", "lucide-at-sign", "green", .AREA, false, false, ""⟩
      = "-area:work" ∧
    clickFilter "-area:work"
      ⟨"work", "area:\"work\"", "lucide-at-sign", "green", .AREA, false, false, ""⟩
      = "" := by decide

/-- C5 counterexample: for `q = f:"' 'x"` the double round-trip is not
value-equal to the single round-trip: value normalization (stripping quote
characters) is not idempotent, `rebuild(parse(q))` is `f:'x` and
`rebuild(parse(rebuild(parse(q))))` is `f:x`, and the two strings parse to
different included maps. -/
theorem c5_counterexample :
    contentOf (roundTrip (roundTrip
        (List.asString ['f', ':', '"', '\'', ' ', '\'', 'x', '"'])))
      ≠ contentOf (roundTrip
        (List.asString ['f', ':', '"', '\'', ' ', '\'', 'x', '"'])) := by decide

/-- C5 (amended): parse -> rebuild double round-trips are value-equal (indeed
byte-equal) to the single round-trip for queries whose values survive
normalization unchanged, such as canonically reordered queries with quoted
multi-word values, exclusions and free text; the general claim fails when a
value's normalization is not idempotent (see the counterexample). -/
theorem c5_roundtrip_stable :
    (roundTrip (roundTrip "coucou -in:inbox tags:\"a b\",\"c d\"")
        = roundTrip "coucou -in:inbox tags:\"a b\",\"c d\"" ∧
      contentOf (roundTrip (roundTrip "coucou -in:inbox tags:\"a b\",\"c d\""))
        = contentOf (roundTrip "coucou -in:inbox tags:\"a b\",\"c d\"")) ∧
    (roundTrip (roundTrip "in:inbox area:\"my area\" -priority:low hello")
        = roundTrip "in:inbox area:\"my area\" -priority:low hello" ∧
      contentOf (roundTrip (roundTrip "in:inbox area:\"my area\" -priority:low hello"))
        = contentOf (roundTrip "in:inbox area:\"my area\" -priority:low hello")) := by decide

/-- C8: when the target filter's `filterQuery` yields no `field:value` pair,
`generate_future_query` returns the current query unchanged, for every
current query, state and strategy. -/
theorem c8_invalid_filter_noop (q : String) (target : FilterOption)
    (st : ToggleState) (strat : Option FilterStrategy)
    (h : parseFilterQuery target.filter_query = []) :
    generateFutureQuery q target st strat = q := by
  simp [generateFutureQuery, nextTokens, h]

/-- C8 witness: a concrete filter whose `filter_query` has no `field:value`
shape is a no-op on `in:inbox`. -/
theorem c8_witness :
    generateFutureQuery "in:inbox"
      ⟨"Invalid", "invalid_format", "lucide-x", "red", .STATUS, false, false, ""⟩
      ⟨false, false⟩ none = "in:inbox" :=
  c8_invalid_filter_noop "in:inbox"
    ⟨"Invalid", "invalid_format", "lucide-x", "red", .STATUS, false, false, ""⟩
    ⟨false, false⟩ none (by decide)

/-- C9: `apply_tokens_to_filters` returns a same-length, same-order list in
which every option keeps its `label`, `filter_query`, `icon`, `color` and
`category`; only the derived fields may change. -/
theorem c9_frame (t : SearchTokens) (filters : List FilterOption) (q : String) :
    (applyTokensToFilters t filters q).length = filters.length ∧
    List.Forall₂
      (fun r fo => r.label = fo.label ∧ r.filter_query = fo.filter_query ∧
        r.icon = fo.icon ∧ r.color = fo.color ∧ r.category = fo.category)
      (applyTokensToFilters t filters q) filters := by
  constructor
  · simp [applyTokensToFilters]
  · induction filters with
    | nil => simp [applyTokensToFilters]
    | cons fo rest ih =>
      exact List.Forall₂.cons (by simp) ih

/-- C10 counterexample: `_add_filter_value` on a collection already holding a
duplicate leaves the value occurring twice, and such collections do arise:
`parse "a:b a:b"` accumulates the pair twice, so `generate_future_query`
rebuilds from tokens where the clicked pair occurs twice. -/
theorem c10_counterexample :
    addFilterValue [("a", ["b", "b"])] "a" "b" = [("a", ["b", "b"])] ∧
    (parse "a:b a:b").included = [("a", ["b", "b"])] ∧
    generateFutureQuery "a:b a:b" ⟨"b", "a:b", "", "", .CONTEXT, false, false, ""⟩
      ⟨false, false⟩ (some .NORMAL) = "a:b,b" := by decide

/-- C10 (amended): `_add_filter_value` never appends an already-present
value: afterwards the value's occurrence count in the field's list is 1 when
it was absent and unchanged otherwise — so it occurs exactly once whenever it
occurred at most once before, but a pre-existing duplicate (reachable by
parsing e.g. `a:b a:b`) is preserved. -/
theorem c10_add_count (d : List (String × List String)) (f v : String) :
    List.count v ((dictGet (addFilterValue d f v) f).getD []) =
      (if List.count v ((dictGet d f).getD []) = 0 then 1
       else List.count v ((dictGet d f).getD [])) := by
  induction d with
  | nil => simp [addFilterValue, dictGet]
  | cons p t ih =>
    obtain ⟨k, vs⟩ := p
    by_cases hk : k = f
    · by_cases hc : vs.contains v
      · have hv : v ∈ vs := by
          simpa [List.contains] using hc
        have : List.count v vs ≠ 0 := by
          have := List.count_pos_iff.mpr hv
          omega
        simp [addFilterValue, dictGet, hk, hc, hv, this]
      · have hv : v ∉ vs := by
          simpa [List.contains] using hc
        have : List.count v vs = 0 := List.count_eq_zero.mpr hv
        simp [addFilterValue, dictGet, hk, hc, hv, this, List.count_append]
    · simp [addFilterValue, dictGet, hk, ih]

/-- C2 counterexample: clicking the active Exclusive filter `priority:low`
while the query is `priority:low,high` removes only the clicked value — the
field survives with its other value (`priority:high`), so an active click
does not leave the field absent. -/
theorem c2_counterexample :
    generateFutureQuery "priority:low,high"
      ⟨"Low Priority", "priority:low", "lucide-arrow-down", "red",
        .PRIORITY, false, false, ""⟩ ⟨true, false⟩ (some .EXCLUSIVE)
      = "priority:high" ∧
    dictGet (parse "priority:high").included "priority" = some ["high"] := by decide

/-- C2 (amended): under the Exclusive strategy, an inactive click deletes the
target's field from both maps and appends the single clicked entry to the
included map, leaving all other fields untouched; an active click removes the
clicked value from both maps, the field becoming absent only when no other
value of that field remains.  The claim's example holds:
`generateNextQuery("in:inbox", in:next, inactive)` is `"in:next"`. -/
theorem c2_exclusive (q : String) (target : FilterOption) (st : ToggleState)
    (f v : String) (rest : List (String × String))
    (h : parseFilterQuery target.filter_query = (f, v) :: rest) :
    (st.active = false →
      nextTokens q target st (some .EXCLUSIVE) =
        some { parse q with
                 included := dictDel (parse q).included f ++ [(f, [v])]
                 excluded := dictDel (parse q).excluded f }) ∧
    (st.active = true →
      nextTokens q target st (some .EXCLUSIVE) =
        some (removeFilterValue (parse q) f v)) ∧
    generateFutureQuery "in:inbox"
      ⟨"Next Actions", "in:next", "lucide-zap", "blue", .STATUS, false, false, ""⟩
      ⟨false, false⟩ (some .EXCLUSIVE) = "in:next" := by
  refine ⟨?_, ?_, by decide⟩
  · intro ha
    simp only [nextTokens, h, Option.getD_some, applyExclusiveFilterStrategy, ha,
      Bool.false_eq_true, if_false]
    rw [addFilterValue_of_dictGet_none v (dictGet_dictDel_self (parse q).included f)]
  · intro ha
    simp only [nextTokens, h, Option.getD_some, applyExclusiveFilterStrategy, ha, if_true]

/-- C2 witness: the inactive branch of the amended Exclusive theorem at a
concrete query and filter. -/
theorem c2_witness :
    nextTokens "has:project"
      ⟨"Next Actions", "in:next", "lucide-zap", "blue", .STATUS, false, false, ""⟩
      ⟨false, false⟩ (some .EXCLUSIVE) =
      some { parse "has:project" with
               included := dictDel (parse "has:project").included "in" ++ [("in", ["next"])]
               excluded := dictDel (parse "has:project").excluded "in" } :=
  (c2_exclusive "has:project"
      ⟨"Next Actions", "in:next", "lucide-zap", "blue", .STATUS, false, false, ""⟩
      ⟨false, false⟩ "in" "next" [] (by decide)).1 rfl

/-- C4: under the Replace strategy every pre-existing included and excluded
entry is wiped — the tokens `generate_future_query` rebuilds from mention no
field other than the clicked one, that field carries exactly the clicked
value, and the free text of the parsed current query is preserved. -/
theorem c4_replace_wipes (q : String) (target : FilterOption) (st : ToggleState)
    (f v : String) (rest : List (String × String))
    (h : parseFilterQuery target.filter_query = (f, v) :: rest) :
    ∃ t, nextTokens q target st (some .REPLACE) = some t ∧
      (∀ p ∈ t.included, p = (f, [v])) ∧
      (∀ p ∈ t.excluded, p = (f, [v])) ∧
      t.query = (parse q).query ∧
      generateFutureQuery q target st (some .REPLACE) = rebuildQueryString t t.query := by
  obtain ⟨a, i⟩ := st
  cases a <;> cases i
  · have hnt : nextTokens q target ⟨false, false⟩ (some .REPLACE) =
        some { parse q with included := [(f, [v])], excluded := [] } := by
      simp [nextTokens, h, applyInvertFilterStrategy, addFilterValue_singleton_self]
    exact ⟨_, hnt, by simp, by simp, rfl, by simp [generateFutureQuery, hnt]⟩
  · have hnt : nextTokens q target ⟨false, true⟩ (some .REPLACE) =
        some { parse q with included := [(f, [v])], excluded := [(f, [v])] } := by
      simp [nextTokens, h, applyInvertFilterStrategy, addFilterValue]
    exact ⟨_, hnt, by simp, by simp, rfl, by simp [generateFutureQuery, hnt]⟩
  · have hnt : nextTokens q target ⟨true, false⟩ (some .REPLACE) =
        some { parse q with included := [], excluded := [(f, [v])] } := by
      simp [nextTokens, h, applyInvertFilterStrategy, removeFilterValue,
        removeValueFromDict_singleton_self, removeValueFromDict, addFilterValue]
    exact ⟨_, hnt, by simp, by simp, rfl, by simp [generateFutureQuery, hnt]⟩
  · have hnt : nextTokens q target ⟨true, true⟩ (some .REPLACE) =
        some { parse q with included := [], excluded := [] } := by
      simp [nextTokens, h, applyInvertFilterStrategy, removeFilterValue,
        removeValueFromDict_singleton_self, removeValueFromDict]
    exact ⟨_, hnt, by simp, by simp, rfl, by simp [generateFutureQuery, hnt]⟩

/-- C4 witness: the Replace theorem at a concrete query, filter and state. -/
theorem c4_witness :
    ∃ t, nextTokens "priority:high coucou"
        ⟨"Inbox", "in:inbox", "lucide-inbox", "blue", .STATUS, false, false, ""⟩
        ⟨false, false⟩ (some .REPLACE) = some t ∧
      (∀ p ∈ t.included, p = ("in", ["inbox"])) ∧
      (∀ p ∈ t.excluded, p = ("in", ["inbox"])) ∧
      t.query = (parse "priority:high coucou").query ∧
      generateFutureQuery "priority:high coucou"
        ⟨"Inbox", "in:inbox", "lucide-inbox", "blue", .STATUS, false, false, ""⟩
        ⟨false, false⟩ (some .REPLACE) = rebuildQueryString t t.query :=
  c4_replace_wipes "priority:high coucou"
    ⟨"Inbox", "in:inbox", "lucide-inbox", "blue", .STATUS, false, false, ""⟩
    ⟨false, false⟩ "in" "inbox" [] (by decide)

/-- C7 counterexample: the energy value `normal` is recognized by the code's
`energy_map` and contributes `Q(energy=None)` — an equality-with-null
predicate, not the empty predicate the claim asserts for every value outside
low, medium, high. -/
theorem c7_counterexample :
    buildEnergyQ ["normal"] = DjangoQ.energyEq none ∧
    DjangoQ.energyEq none ≠ DjangoQ.empty := by decide

/-- C7 (amended): the energy predicate builder yields an equality predicate
for low, medium and high, an equality-with-null predicate for `normal`, a
negated equality for `-`-prefixed recognized values, and an empty (no-op)
predicate for every other value. -/
theorem c7_energy (v : String)
    (h1 : energyMap.lookup (pyLowerStrip v).asString = none)
    (h2 : ∀ rest : List Char, pyLowerStrip v = '-' :: rest →
      energyMap.lookup rest.asString = none) :
    buildEnergyQ ["low"] = .energyEq (some .LOW) ∧
    buildEnergyQ ["medium"] = .energyEq (some .MEDIUM) ∧
    buildEnergyQ ["high"] = .energyEq (some .HIGH) ∧
    buildEnergyQ ["normal"] = .energyEq none ∧
    buildEnergyQ ["-low"] = .qnot (.energyEq (some .LOW)) ∧
    buildEnergyQ ["-medium"] = .qnot (.energyEq (some .MEDIUM)) ∧
    buildEnergyQ ["-high"] = .qnot (.energyEq (some .HIGH)) ∧
    buildEnergyQ ["-normal"] = .qnot (.energyEq none) ∧
    buildEnergyQ [v] = .empty := by
  refine ⟨by decide, by decide, by decide, by decide, by decide, by decide,
    by decide, by decide, ?_⟩
  simp only [buildEnergyQ, List.foldl, h1]
  cases hv : pyLowerStrip v with
  | nil => rfl
  | cons c rest =>
    by_cases hc : c = '-'
    · subst hc
      simp [h2 rest hv]
    · split
      · simp_all
      · rfl

/-- C7 witness: the amended energy theorem at the unrecognized value
`urgent`. -/
theorem c7_witness :
    buildEnergyQ ["urgent"] = DjangoQ.empty :=
  (c7_energy "urgent" (by decide)
      (fun rest hr => by
        rw [show pyLowerStrip "urgent" = ['u', 'r', 'g', 'e', 'n', 't'] from by decide] at hr
        simp at hr)).2.2.2.2.2.2.2.2

/-! Scanner lemmas: every match produced by `findMatches` comes from a
`tryMatchAt` on a sub-collection of the input's characters. -/

theorem tryMatchCore_neg {neg : Bool} {l : List Char} {m : RawMatch}
    (h : tryMatchCore neg l = some m) : m.neg = neg := by
  simp only [tryMatchCore] at h
  split at h
  · simp at h
  · split at h
    · split at h
      · cases h; rfl
      · simp at h
    · simp at h

theorem tryMatchAt_neg_dash {l : List Char} {m : RawMatch}
    (h : tryMatchAt l = some m) (hneg : m.neg = true) : '-' ∈ l := by
  unfold tryMatchAt at h
  split at h
  · exact List.mem_cons_self _ _
  · simp [tryMatchCore_neg h] at hneg

theorem tryMatchCore_val_subset {neg : Bool} {l : List Char} {m : RawMatch}
    (h : tryMatchCore neg l = some m) : ∀ c ∈ m.val, c ∈ l := by
  simp only [tryMatchCore] at h
  split at h
  · simp at h
  · split at h
    next l3 heq =>
      split at h
      · cases h
        intro c hc
        have h1 : c ∈ (':' :: l3) :=
          List.mem_cons_of_mem _ (List.take_subset _ _ hc)
        rw [← heq] at h1
        exact List.drop_subset _ _ h1
      · simp at h
    next => simp at h

theorem tryMatchAt_val_subset {l : List Char} {m : RawMatch}
    (h : tryMatchAt l = some m) : ∀ c ∈ m.val, c ∈ l := by
  unfold tryMatchAt at h
  split at h
  · intro c hc
    exact List.mem_cons_of_mem _ (tryMatchCore_val_subset h c hc)
  · exact tryMatchCore_val_subset h

theorem findMatchesFuel_exists_tryMatch :
    ∀ (fuel : Nat) (l : List Char) (m : RawMatch), m ∈ findMatchesFuel fuel l →
      ∃ l', l' ⊆ l ∧ tryMatchAt l' = some m := by
  intro fuel
  induction fuel with
  | zero =>
    intro l m hm
    simp [findMatchesFuel] at hm
  | succ fuel ih =>
    intro l m hm
    simp only [findMatchesFuel] at hm
    split at hm
    · next m0 heq =>
      rcases List.mem_cons.mp hm with rfl | hmem
      · exact ⟨l, fun c hc => hc, heq⟩
      · obtain ⟨l', hsub, h⟩ := ih _ _ hmem
        exact ⟨l', fun c hc => List.drop_subset _ _ (hsub hc), h⟩
    · split at hm
      · simp at hm
      · obtain ⟨l', hsub, h⟩ := ih _ _ hm
        exact ⟨l', fun c hc => List.mem_cons_of_mem _ (hsub hc), h⟩

theorem findMatches_neg_dash {l : List Char} {m : RawMatch}
    (hm : m ∈ findMatches l) (hneg : m.neg = true) : '-' ∈ l := by
  obtain ⟨l', hsub, h⟩ := findMatchesFuel_exists_tryMatch _ l m hm
  exact hsub (tryMatchAt_neg_dash h hneg)

theorem findMatches_val_subset {l : List Char} {m : RawMatch}
    (hm : m ∈ findMatches l) : ∀ c ∈ m.val, c ∈ l := by
  obtain ⟨l', hsub, h⟩ := findMatchesFuel_exists_tryMatch _ l m hm
  exact fun c hc => hsub (tryMatchAt_val_subset h c hc)

theorem foldl_parseStep_excluded (ms : List RawMatch) :
    ∀ acc : List (String × List String) × List (String × List String) × List Char,
      (∀ m ∈ ms, m.neg = false) → (ms.foldl parseStep acc).2.1 = acc.2.1 := by
  induction ms with
  | nil => intro acc _; rfl
  | cons m t ih =>
    intro acc hall
    rw [List.foldl_cons, ih _ (fun x hx => hall x (List.mem_cons_of_mem _ hx))]
    simp [parseStep, hall m (List.mem_cons_self _ _)]

/-- C1 counterexample: after the single parse of `in:inbox -in:inbox` the
pair (`in`, `inbox`) is present in both the included and the excluded map. -/
theorem c1_counterexample :
    "inbox" ∈ (dictGet (parse "in:inbox -in:inbox").included "in").getD [] ∧
    "inbox" ∈ (dictGet (parse "in:inbox -in:inbox").excluded "in").getD [] := by decide

/-- C1 (amended): a single match contributes to exactly one of the two maps,
but a query containing both polarities of a pair puts it in both; what holds
is that a query without any `-` character parses with an empty excluded map,
so no pair can be in both. -/
theorem c1_no_dash_excluded_empty (q : String) (h : '-' ∉ q.data) :
    (parse q).excluded = [] := by
  by_cases hq : q = ""
  · simp [parse, hq]
  · have hall : ∀ m ∈ findMatches q.data, m.neg = false := by
      intro m hm
      cases hneg : m.neg
      · rfl
      · exact absurd (findMatches_neg_dash hm hneg) h
    simp only [parse, if_neg hq]
    exact foldl_parseStep_excluded _ _ hall

/-- C1 witness: the amended theorem at a dash-free query. -/
theorem c1_witness :
    (parse "in:inbox coucou").excluded = [] :=
  c1_no_dash_excluded_empty "in:inbox coucou" (by decide)

theorem parseFieldValue_of_no_quote_no_comma {v : List Char}
    (hq : '"' ∉ v) (hc : ',' ∉ v) : parseFieldValue v = [v.asString] := by
  have h1 : ¬(v.head? = some '"' ∧ v.getLast? = some '"') := by
    rintro ⟨hh, -⟩
    cases v with
    | nil => simp at hh
    | cons a t =>
      simp only [List.head?_cons, Option.some.injEq] at hh
      exact hq (hh ▸ List.mem_cons_self _ _)
  simp [parseFieldValue, h1, hq, hc]

theorem dictExtend_nonempty {d : List (String × List String)} {k : String}
    {vs : List String} (hd : ∀ p ∈ d, p.2 ≠ []) (hvs : vs ≠ []) :
    ∀ p ∈ dictExtend d k vs, p.2 ≠ [] := by
  induction d with
  | nil =>
    intro p hp
    simp only [dictExtend, List.mem_singleton] at hp
    rw [hp]
    exact hvs
  | cons q t ih =>
    obtain ⟨k1, vs1⟩ := q
    intro p hp
    by_cases hk : k1 = k
    · simp only [dictExtend, if_pos hk] at hp
      rcases List.mem_cons.mp hp with rfl | hmem
      · exact fun hcontra => hvs (List.append_eq_nil.mp hcontra).2
      · exact hd _ (List.mem_cons_of_mem _ hmem)
    · simp only [dictExtend, if_neg hk] at hp
      rcases List.mem_cons.mp hp with rfl | hmem
      · exact hd _ (List.mem_cons_self _ _)
      · exact ih (fun r hr => hd r (List.mem_cons_of_mem _ hr)) _ hmem

theorem foldl_parseStep_nonempty (ms : List RawMatch) :
    ∀ acc : List (String × List String) × List (String × List String) × List Char,
      (∀ m ∈ ms, parseFieldValue m.val ≠ []) →
      (∀ p ∈ acc.1, p.2 ≠ []) → (∀ p ∈ acc.2.1, p.2 ≠ []) →
      (∀ p ∈ (ms.foldl parseStep acc).1, p.2 ≠ []) ∧
      (∀ p ∈ (ms.foldl parseStep acc).2.1, p.2 ≠ []) := by
  induction ms with
  | nil => intro acc _ h1 h2; exact ⟨h1, h2⟩
  | cons m t ih =>
    intro acc hall h1 h2
    rw [List.foldl_cons]
    apply ih
    · intro x hx
      exact hall x (List.mem_cons_of_mem _ hx)
    · cases hneg : m.neg
      · simpa [parseStep, hneg] using
          dictExtend_nonempty h1 (hall m (List.mem_cons_self _ _))
      · simpa [parseStep, hneg] using h1
    · cases hneg : m.neg
      · simpa [parseStep, hneg] using h2
      · simpa [parseStep, hneg] using
          dictExtend_nonempty h2 (hall m (List.mem_cons_self _ _))

/-- C6 counterexample: parse can create a field entry with an empty value
list: a value consisting only of a comma (`a:,`) or containing an unpaired
quote (`a:"x`) matches the field pattern but parses to zero values. -/
theorem c6_counterexample :
    (parse "a:,").included = [("a", [])] ∧
    (parse "a:\"x").included = [("a", [])] := by decide

/-- C6 (amended): for inputs containing no double quote and no comma, every
field present in the included or excluded map maps to a non-empty value
list; `field:` with nothing after the colon is never matched and remains
free text.  In general an entry with an empty list can be created (see the
counterexample). -/
theorem c6_no_empty_entries (q : String) (hq : '"' ∉ q.data) (hc : ',' ∉ q.data) :
    ((∀ p ∈ (parse q).included, p.2 ≠ []) ∧ (∀ p ∈ (parse q).excluded, p.2 ≠ [])) ∧
    (parse "field:").included = [] ∧ (parse "field:").excluded = [] ∧
    (parse "field:").query = "field:" := by
  refine ⟨?_, by decide, by decide, by decide⟩
  by_cases hq0 : q = ""
  · simp [parse, hq0]
  · have hall : ∀ m ∈ findMatches q.data, parseFieldValue m.val ≠ [] := by
      intro m hm
      have hsub := findMatches_val_subset hm
      rw [parseFieldValue_of_no_quote_no_comma
        (fun hx => hq (hsub _ hx)) (fun hx => hc (hsub _ hx))]
      simp
    simp only [parse, if_neg hq0]
    exact foldl_parseStep_nonempty _ _ hall (by simp) (by simp)

/-- C6 witness: the amended theorem at a quote-free, comma-free query. -/
theorem c6_witness :
    (∀ p ∈ (parse "in:inbox next").included, p.2 ≠ []) ∧
    (∀ p ∈ (parse "in:inbox next").excluded, p.2 ≠ []) :=
  (c6_no_empty_entries "in:inbox next" (by decide) (by decide)).1
